import Mathlib

/-!
Verification of the port-allocation and process-lifecycle core of the
claude-desktop-manager repository.

The port allocator (`core/port_manager.py`) keeps a durable JSON registry
mapping instance names to base ports; we model the registry file as an
association list and each operation as a pure state transformer carrying a
write counter (one increment per `_save_registry` call).  The availability
probe (`_is_port_available`) depends on the host network, so it enters the
model as an oracle `avail : Nat → Bool`; the probe's own classification of
a single connect outcome is modelled separately by `ProbeOutcome`.

The process supervisor (`core/server_manager.py`) is modelled in the second
half of the file.
-/

namespace CDesk

def MCP_BASE_PORT : Nat := 9000

def MCP_PORT_RANGE : Nat := 100

/-- The on-disk `allocated_ports` mapping: instance name to base port.
Python dict keys are unique; lookups take the first match. -/
abbrev Registry := List (String × Nat)

def regLookup : Registry → String → Option Nat
  | [], _ => none
  | (k, v) :: rest, n => if k = n then some v else regLookup rest n

/-- `del allocated_ports[name]`: remove the (unique) entry for `name`. -/
def regErase : Registry → String → Registry
  | [], _ => []
  | (k, v) :: rest, n => if k = n then rest else (k, v) :: regErase rest n

/-- State of the port manager: the registry file content plus a counter of
`_save_registry` calls (file rewrites). -/
structure PMState where
  file : Registry
  writes : Nat
deriving DecidableEq

/-- `_load_registry`: read the registry file. -/
def load_registry (s : PMState) : Registry := s.file

/-- `_save_registry`: rewrite the registry file. -/
def save_registry (r : Registry) (s : PMState) : PMState :=
  { file := r, writes := s.writes + 1 }

/-- The scan in `_find_next_port_base`:
`highest_port = MCP_BASE_PORT; for port in values: highest_port = max(highest_port, port)`. -/
def findHighest (reg : Registry) : Nat :=
  List.foldl (fun h p => max h p.2) MCP_BASE_PORT reg

/-- `_check_port_range_available`: probe the four key offsets of a base. -/
def check_port_range_available (avail : Nat → Bool) (port_base : Nat) : Bool :=
  [port_base + 10, port_base + 20, port_base + 30, port_base + 40].all avail

/-- `_find_next_port_base`: next base after the highest allocation, probing
up to 10 successive candidates and falling back to the first unprobed. -/
def find_next_port_base (avail : Nat → Bool) (reg : Registry) : Nat :=
  let next_base := findHighest reg + MCP_PORT_RANGE
  match (List.range 10).find?
      (fun i => check_port_range_available avail (next_base + i * MCP_PORT_RANGE)) with
  | some i => next_base + i * MCP_PORT_RANGE
  | none => next_base

/-- `allocate_port_range`: return the existing base if present, otherwise
allocate the next base, record it and save the registry. -/
def allocate_port_range (avail : Nat → Bool) (s : PMState) (name : String) :
    Nat × PMState :=
  let reg := load_registry s
  match regLookup reg name with
  | some p => (p, s)
  | none =>
    let base := find_next_port_base avail reg
    (base, save_registry (reg ++ [(name, base)]) s)

/-- `get_port_base`: existing base if present, else allocate. -/
def get_port_base (avail : Nat → Bool) (s : PMState) (name : String) :
    Nat × PMState :=
  match regLookup (load_registry s) name with
  | some p => (p, s)
  | none => allocate_port_range avail s name

/-- The static tool-offset table of `get_tool_port` (default offset 90). -/
def tool_offset (tool : String) : Nat :=
  if tool = "filesystem" then 10
  else if tool = "sequential-thinking" then 20
  else if tool = "memory" then 30
  else if tool = "desktop-commander" then 40
  else if tool = "repl" then 50
  else if tool = "@executeautomation-playwright-mcp-server" then 60
  else 90

/-- `get_tool_port`: base port of the instance plus the tool's offset. -/
def get_tool_port (avail : Nat → Bool) (s : PMState) (inst tool : String) :
    Nat × PMState :=
  let r := get_port_base avail s inst
  (r.1 + tool_offset tool, r.2)

/-- `release_port_range`: delete and save if present, else report false. -/
def release_port_range (s : PMState) (name : String) : Bool × PMState :=
  let reg := load_registry s
  match regLookup reg name with
  | some _ => (true, save_registry (regErase reg name) s)
  | none => (false, s)

/-- Outcome of one probe in `_is_port_available`: either `connect_ex`
returned a code, or the attempt raised (socket error / timeout raised). -/
inductive ProbeOutcome where
  | result (code : Int)
  | sockError
deriving DecidableEq

/-- `_is_port_available`: `connect_ex` result 0 means in use; a nonzero
result means available; the `except` branch returns False (in use). -/
def is_port_available : ProbeOutcome → Bool
  | .result code => code != 0
  | .sockError => false

/-- A sequence of `allocate_port_range` calls, returning the list of base
ports handed out together with the final state. -/
def allocate_sequence (avail : Nat → Bool) : List String → PMState → List Nat × PMState
  | [], s => ([], s)
  | n :: ns, s =>
    let r := allocate_port_range avail s n
    let rs := allocate_sequence avail ns r.2
    (r.1 :: rs.1, rs.2)

/-- Two base ports whose ranges do not overlap. -/
def Sep (a b : Nat) : Prop := a + MCP_PORT_RANGE ≤ b ∨ b + MCP_PORT_RANGE ≤ a

instance : DecidablePred fun p : Nat × Nat => Sep p.1 p.2 := by
  intro p; unfold Sep; infer_instance

instance (a b : Nat) : Decidable (Sep a b) := by
  unfold Sep; infer_instance

/-- Registry invariant: keys are pairwise distinct and values pairwise at
least `MCP_PORT_RANGE` apart. -/
def Inv (reg : Registry) : Prop :=
  reg.Pairwise fun e e' => e.1 ≠ e'.1 ∧ Sep e.2 e'.2

instance (reg : Registry) : Decidable (Inv reg) := by
  unfold Inv; infer_instance

theorem regLookup_mem {reg : Registry} {n : String} {v : Nat}
    (h : regLookup reg n = some v) : (n, v) ∈ reg := by
  induction reg with
  | nil => simp [regLookup] at h
  | cons e rest ih =>
    obtain ⟨k, w⟩ := e
    by_cases hk : k = n
    · subst hk
      simp [regLookup] at h
      simp [h]
    · simp [regLookup, hk] at h
      exact List.mem_cons_of_mem _ (ih h)

theorem regLookup_none_not_mem {reg : Registry} {n : String}
    (h : regLookup reg n = none) : ∀ v, (n, v) ∉ reg := by
  intro v hv
  induction reg with
  | nil => simp at hv
  | cons e rest ih =>
    obtain ⟨k, w⟩ := e
    by_cases hk : k = n
    · subst hk; simp [regLookup] at h
    · simp [regLookup, hk] at h
      rcases List.mem_cons.mp hv with h1 | h1
      · exact hk (congrArg Prod.fst h1).symm
      · exact ih h h1

theorem regLookup_append_of_some {reg : Registry} {n : String} {v : Nat}
    (l : Registry) (h : regLookup reg n = some v) :
    regLookup (reg ++ l) n = some v := by
  induction reg with
  | nil => simp [regLookup] at h
  | cons e rest ih =>
    obtain ⟨k, w⟩ := e
    by_cases hk : k = n
    · subst hk; simp [regLookup] at h ⊢; exact h
    · simp [regLookup, hk] at h ⊢; exact ih h

theorem regLookup_append_self {reg : Registry} {n : String}
    (h : regLookup reg n = none) (b : Nat) :
    regLookup (reg ++ [(n, b)]) n = some b := by
  induction reg with
  | nil => simp [regLookup]
  | cons e rest ih =>
    obtain ⟨k, w⟩ := e
    by_cases hk : k = n
    · subst hk; simp [regLookup] at h
    · simp [regLookup, hk] at h ⊢; exact ih h

theorem le_findHighest_aux (reg : Registry) :
    ∀ b : Nat, b ≤ List.foldl (fun h p => max h p.2) b reg ∧
      ∀ e ∈ reg, e.2 ≤ List.foldl (fun h p => max h p.2) b reg := by
  induction reg with
  | nil => intro b; simp
  | cons e rest ih =>
    intro b
    have h1 := ih (max b e.2)
    refine ⟨le_trans (le_max_left _ _) h1.1, ?_⟩
    intro x hx
    rcases List.mem_cons.mp hx with h2 | h2
    · subst h2
      exact le_trans (le_max_right b x.2) h1.1
    · exact h1.2 x h2

theorem le_findHighest {reg : Registry} {e : String × Nat} (h : e ∈ reg) :
    e.2 ≤ findHighest reg :=
  (le_findHighest_aux reg MCP_BASE_PORT).2 e h

theorem find_next_port_base_ge (avail : Nat → Bool) (reg : Registry) :
    findHighest reg + MCP_PORT_RANGE ≤ find_next_port_base avail reg := by
  unfold find_next_port_base
  cases hf : (List.range 10).find?
      (fun i => check_port_range_available avail
        (findHighest reg + MCP_PORT_RANGE + i * MCP_PORT_RANGE)) with
  | none => simp [hf]
  | some i => simp [hf]

theorem Inv_append_alloc {reg : Registry} {n : String}
    (hinv : Inv reg) (hnone : regLookup reg n = none) (avail : Nat → Bool) :
    Inv (reg ++ [(n, find_next_port_base avail reg)]) := by
  unfold Inv at hinv ⊢
  rw [List.pairwise_append]
  refine ⟨hinv, List.pairwise_singleton _ _, ?_⟩
  rintro ⟨k, v⟩ he e' he'
  rcases List.mem_singleton.mp he' with rfl
  refine ⟨?_, Or.inl ?_⟩
  · show k ≠ n
    intro hk
    subst hk
    exact regLookup_none_not_mem hnone v he
  · show v + MCP_PORT_RANGE ≤ find_next_port_base avail reg
    have h1 : v ≤ findHighest reg := le_findHighest he
    have h2 := find_next_port_base_ge avail reg
    omega

theorem Inv_sep {reg : Registry} {m n : String} {v w : Nat}
    (hinv : Inv reg) (hm : regLookup reg m = some v)
    (hn : regLookup reg n = some w) (hmn : m ≠ n) : Sep v w := by
  have hsymm : Symmetric fun e e' : String × Nat => e.1 ≠ e'.1 ∧ Sep e.2 e'.2 := by
    intro a b h
    exact ⟨h.1.symm, h.2.symm⟩
  have h1 := List.Pairwise.forall hsymm hinv (regLookup_mem hm) (regLookup_mem hn)
    (by intro hcontra; exact hmn (congrArg Prod.fst hcontra))
  exact h1.2

theorem allocate_lookup_self (avail : Nat → Bool) (s : PMState) (n : String) :
    regLookup (allocate_port_range avail s n).2.file n
      = some (allocate_port_range avail s n).1 := by
  unfold allocate_port_range load_registry
  cases h : regLookup s.file n with
  | some p => simp [h]
  | none =>
    simp only [h, save_registry]
    exact regLookup_append_self h _

theorem allocate_mono {s : PMState} {m : String} {v : Nat}
    (avail : Nat → Bool) (n : String) (h : regLookup s.file m = some v) :
    regLookup (allocate_port_range avail s n).2.file m = some v := by
  unfold allocate_port_range load_registry
  cases hn : regLookup s.file n with
  | some p => simp only [hn]; exact h
  | none =>
    simp only [hn, save_registry]
    exact regLookup_append_of_some _ h

theorem allocate_Inv {s : PMState} (avail : Nat → Bool) (n : String)
    (hinv : Inv s.file) : Inv (allocate_port_range avail s n).2.file := by
  unfold allocate_port_range load_registry
  cases hn : regLookup s.file n with
  | some p => simp only [hn]; exact hinv
  | none =>
    simp only [hn, save_registry]
    exact Inv_append_alloc hinv hn avail

theorem allocate_sequence_mono {m : String} {v : Nat} (avail : Nat → Bool)
    (ns : List String) (s : PMState) (h : regLookup s.file m = some v) :
    regLookup (allocate_sequence avail ns s).2.file m = some v := by
  induction ns generalizing s with
  | nil => simpa [allocate_sequence] using h
  | cons n rest ih =>
    simp only [allocate_sequence]
    exact ih _ (allocate_mono avail n h)

theorem allocate_sequence_Inv (avail : Nat → Bool) (ns : List String)
    (s : PMState) (hinv : Inv s.file) :
    Inv (allocate_sequence avail ns s).2.file := by
  induction ns generalizing s with
  | nil => simpa [allocate_sequence] using hinv
  | cons n rest ih =>
    simp only [allocate_sequence]
    exact ih _ (allocate_Inv avail n hinv)

theorem allocate_sequence_results (avail : Nat → Bool) (ns : List String)
    (s : PMState) :
    ∀ q ∈ (allocate_sequence avail ns s).1, ∃ m ∈ ns,
      regLookup (allocate_sequence avail ns s).2.file m = some q := by
  induction ns generalizing s with
  | nil => simp [allocate_sequence]
  | cons n rest ih =>
    intro q hq
    simp only [allocate_sequence] at hq ⊢
    rcases List.mem_cons.mp hq with h1 | h1
    · subst h1
      exact ⟨n, List.mem_cons_self n rest,
        allocate_sequence_mono avail rest _ (allocate_lookup_self avail s n)⟩
    · obtain ⟨m, hm, hl⟩ := ih _ q h1
      exact ⟨m, List.mem_cons_of_mem _ hm, hl⟩

theorem allocate_none {s : PMState} {name : String} (avail : Nat → Bool)
    (h : regLookup s.file name = none) :
    allocate_port_range avail s name =
      (find_next_port_base avail s.file,
        save_registry (s.file ++ [(name, find_next_port_base avail s.file)]) s) := by
  unfold allocate_port_range load_registry
  dsimp only
  rw [h]

theorem find_next_first (avail : Nat → Bool) (reg : Registry)
    (h : check_port_range_available avail (findHighest reg + MCP_PORT_RANGE) = true) :
    find_next_port_base avail reg = findHighest reg + MCP_PORT_RANGE := by
  unfold find_next_port_base
  dsimp only
  rw [List.range_succ_eq_map, List.find?_cons_of_pos _ (by simpa using h)]
  simp

/-- C1: for every sequence of `allocate_port_range` calls with pairwise
distinct instance names and no intervening release, starting from any
registry satisfying the separation invariant, the base ports returned are
pairwise at least `MCP_PORT_RANGE` apart. -/
theorem allocate_sequence_pairwise_separated (avail : Nat → Bool)
    (ns : List String) (s : PMState) (hinv : Inv s.file) (hnd : ns.Nodup) :
    ((allocate_sequence avail ns s).1).Pairwise Sep := by
  induction ns generalizing s with
  | nil => simp [allocate_sequence]
  | cons n rest ih =>
    show ((allocate_port_range avail s n).1 ::
      (allocate_sequence avail rest (allocate_port_range avail s n).2).1).Pairwise Sep
    rw [List.pairwise_cons]
    constructor
    · intro q hq
      obtain ⟨m, hm, hl⟩ := allocate_sequence_results avail rest _ q hq
      have hp := allocate_sequence_mono avail rest _ (allocate_lookup_self avail s n)
      have hinv' := allocate_sequence_Inv avail rest _ (allocate_Inv avail n hinv)
      have hmn : n ≠ m := by
        intro hcontra
        subst hcontra
        exact (List.nodup_cons.mp hnd).1 hm
      exact Inv_sep hinv' hp hl hmn
    · exact ih _ (allocate_Inv avail n hinv) (List.nodup_cons.mp hnd).2

theorem allocate_sequence_pairwise_separated_witness :
    Inv (PMState.mk [] 0).file ∧ (["a", "b"] : List String).Nodup ∧
      ((allocate_sequence (fun _ => true) ["a", "b"] ⟨[], 0⟩).1).Pairwise Sep :=
  ⟨by decide, by decide,
    allocate_sequence_pairwise_separated (fun _ => true) ["a", "b"] ⟨[], 0⟩
      (by decide) (by decide)⟩

/-- C2: `allocate_port_range` is idempotent: a second call for the same
instance name (no intervening release) returns the same base port and
leaves the registry state (file content and write count) unchanged. -/
theorem allocate_port_range_idempotent (avail : Nat → Bool) (s : PMState)
    (n : String) :
    allocate_port_range avail (allocate_port_range avail s n).2 n
      = allocate_port_range avail s n := by
  have h := allocate_lookup_self avail s n
  set r := allocate_port_range avail s n with hr
  show allocate_port_range avail r.2 n = r
  unfold allocate_port_range load_registry
  simp [h]

/-- C5 counterexample: with an empty registry and a probe that reports every
port available, the first allocation hands out base 9100 (not 9000, as the
claim states), so `get_tool_port "alpha" "memory"` returns 9130, not 9030:
`_find_next_port_base` starts at `max(existing, MCP_BASE_PORT) +
MCP_PORT_RANGE`, so base 9000 itself is never allocated. -/
theorem first_allocation_counterexample :
    (allocate_port_range (fun _ => true) ⟨[], 0⟩ "alpha").1 = 9100 ∧
    (allocate_port_range (fun _ => true) ⟨[], 0⟩ "alpha").1 ≠ 9000 ∧
    (get_tool_port (fun _ => true) ⟨[], 0⟩ "alpha" "memory").1 = 9130 ∧
    (get_tool_port (fun _ => true) ⟨[], 0⟩ "alpha" "memory").1 ≠ 9030 := by
  decide

/-- C5 (amended): when the registry is empty and the probed candidate
(9100 = `MCP_BASE_PORT + MCP_PORT_RANGE`) is available, the first
allocation assigns base port 9100, so `get_tool_port "alpha" "memory"` on
an instance with no registry entry returns 9130. -/
theorem first_allocation_base (avail : Nat → Bool)
    (h : check_port_range_available avail 9100 = true) :
    (allocate_port_range avail ⟨[], 0⟩ "alpha").1 = 9100 ∧
    (get_tool_port avail ⟨[], 0⟩ "alpha" "memory").1 = 9130 := by
  have h1 : find_next_port_base avail [] = 9100 := find_next_first avail [] h
  constructor
  · show find_next_port_base avail [] = 9100
    exact h1
  · show find_next_port_base avail [] + tool_offset "memory" = 9130
    rw [h1]
    decide

theorem first_allocation_base_witness :
    check_port_range_available (fun _ => true) 9100 = true ∧
      ((allocate_port_range (fun _ => true) ⟨[], 0⟩ "alpha").1 = 9100 ∧
        (get_tool_port (fun _ => true) ⟨[], 0⟩ "alpha" "memory").1 = 9130) :=
  ⟨by decide, first_allocation_base (fun _ => true) (by decide)⟩

/-- C6 counterexample: a probe attempt that raises (socket error) is
classified by `_is_port_available` as in use (`False`), not available:
the claim that every failed connect, including any socket error, yields
"available" is false on the exception path. -/
theorem is_port_available_error_counterexample :
    ¬ (is_port_available ProbeOutcome.sockError = true) := by
  decide

/-- C6 (amended): a successful connect (`connect_ex` result 0) classifies
the port as in use; a failed connect with a nonzero `connect_ex` result is
treated as available; but a probe that raises a socket error is treated as
in use (the `except` branch returns `False`). -/
theorem is_port_available_classification (c : Int) (h : c ≠ 0) :
    is_port_available (ProbeOutcome.result 0) = false ∧
    is_port_available (ProbeOutcome.result c) = true ∧
    is_port_available ProbeOutcome.sockError = false := by
  refine ⟨rfl, ?_, rfl⟩
  simpa [is_port_available] using h

theorem is_port_available_classification_witness :
    (7 : Int) ≠ 0 ∧
      (is_port_available (ProbeOutcome.result 0) = false ∧
        is_port_available (ProbeOutcome.result 7) = true ∧
        is_port_available ProbeOutcome.sockError = false) :=
  ⟨by decide, is_port_available_classification 7 (by decide)⟩

/-- C7: when none of the 10 successive candidate bases passes the
availability probe, allocation of an unregistered name still returns the
first candidate, `max(existing bases, MCP_BASE_PORT) + MCP_PORT_RANGE`,
rather than failing. -/
theorem allocate_fallback (avail : Nat → Bool) (s : PMState) (name : String)
    (hnone : regLookup s.file name = none)
    (hfail : ∀ i < 10, check_port_range_available avail
      (findHighest s.file + MCP_PORT_RANGE + i * MCP_PORT_RANGE) = false) :
    (allocate_port_range avail s name).1 = findHighest s.file + MCP_PORT_RANGE := by
  have hfind : (List.range 10).find? (fun i => check_port_range_available avail
      (findHighest s.file + MCP_PORT_RANGE + i * MCP_PORT_RANGE)) = none := by
    rw [List.find?_eq_none]
    intro i hi
    simp only [Bool.not_eq_true]
    exact hfail i (List.mem_range.mp hi)
  rw [allocate_none avail hnone]
  show find_next_port_base avail s.file = findHighest s.file + MCP_PORT_RANGE
  unfold find_next_port_base
  dsimp only
  rw [hfind]

theorem allocate_fallback_witness :
    regLookup ((⟨[("x", 9200)], 3⟩ : PMState)).file "a" = none ∧
      (∀ i < 10, check_port_range_available (fun _ => false)
        (findHighest ((⟨[("x", 9200)], 3⟩ : PMState)).file + MCP_PORT_RANGE
          + i * MCP_PORT_RANGE) = false) ∧
      (allocate_port_range (fun _ => false) ⟨[("x", 9200)], 3⟩ "a").1
        = findHighest ((⟨[("x", 9200)], 3⟩ : PMState)).file + MCP_PORT_RANGE :=
  ⟨by decide, by decide,
    allocate_fallback (fun _ => false) ⟨[("x", 9200)], 3⟩ "a" (by decide) (by decide)⟩

/-- C10: `release_port_range` on an instance name absent from the registry
returns false and leaves the state untouched: same file content and same
write counter, so the registry file is not rewritten. -/
theorem release_absent (s : PMState) (name : String)
    (h : regLookup s.file name = none) :
    release_port_range s name = (false, s) := by
  unfold release_port_range load_registry
  dsimp only
  rw [h]

theorem release_absent_witness :
    regLookup ((⟨[("x", 9100)], 2⟩ : PMState)).file "y" = none ∧
      release_port_range ⟨[("x", 9100)], 2⟩ "y" = (false, ⟨[("x", 9100)], 2⟩) :=
  ⟨by decide, release_absent ⟨[("x", 9100)], 2⟩ "y" (by decide)⟩

/-!
### Process supervisor (`core/server_manager.py`)

`ServerManager` keeps two in-memory dicts, `servers` (instance → server →
process handle) and `server_logs` (instance → server → captured lines),
modelled as association lists with unique keys.  The OS-dependent parts
enter as data: a `Proc` records what `poll()` reports, how the
terminate/wait/kill sequence would play out, and the raw lines pending on
the merged stdout/stderr pipe; a `SupEnv` provides the configuration
store (`registry.get_instance_mcp_config`) and the outcome of
`subprocess.Popen` (`none` models a raised launch exception).  The
environment-variable assembly and `--port` extraction feed only into the
launched subprocess, which is abstracted by `SupEnv.launch`.
-/

def lookupA {α : Type} : List (String × α) → String → Option α
  | [], _ => none
  | (k, v) :: rest, n => if k = n then some v else lookupA rest n

/-- `d[k] = v`: replace the entry if the key exists, else append it. -/
def setA {α : Type} : List (String × α) → String → α → List (String × α)
  | [], k, v => [(k, v)]
  | (k', v') :: rest, k, v =>
    if k' = k then (k, v) :: rest else (k', v') :: setA rest k v

/-- `del d[k]`: remove the (unique) entry for `k`. -/
def eraseA {α : Type} : List (String × α) → String → List (String × α)
  | [], _ => []
  | (k', v) :: rest, k => if k' = k then rest else (k', v) :: eraseA rest k

/-- `d[i][s]` on the two-level tables, `none` when either key is absent. -/
def lookup2 {α : Type} (m : List (String × List (String × α))) (i s : String) :
    Option α :=
  match lookupA m i with
  | none => none
  | some inner => lookupA inner s

/-- `d[i][s] = v` (the inner dict is created if `i` is absent). -/
def set2 {α : Type} (m : List (String × List (String × α))) (i s : String)
    (v : α) : List (String × List (String × α)) :=
  match lookupA m i with
  | none => m ++ [(i, [(s, v)])]
  | some inner => setA m i (setA inner s v)

/-- `del d[i][s]`. -/
def erase2 {α : Type} (m : List (String × List (String × α))) (i s : String) :
    List (String × List (String × α)) :=
  match lookupA m i with
  | none => m
  | some inner => setA m i (eraseA inner s)

/-- How the terminate / wait(3) / kill / wait(1) sequence of `stop_server`
would play out for a live process; decided by the OS, so part of the data. -/
inductive StopBehavior where
  | graceful
  | forced
  | raises
deriving DecidableEq

/-- A tracked subprocess handle: what `poll()` reports, the stop behaviour,
and the raw lines pending on the merged output pipe. -/
structure Proc where
  alive : Bool
  stopBehavior : StopBehavior
  output : List String
deriving DecidableEq

/-- One entry of the `mcpServers` mapping; absent JSON keys are `none`
(the source applies defaults `"npx"`, `[]`, `{}`, `False` on read). -/
structure ServerConfig where
  command : Option String
  args : Option (List String)
  env : Option (List (String × String))
  autoStart : Option Bool
deriving DecidableEq

/-- An instance's configuration document (`claude_desktop_config.json`);
`mcpServers` is `none` when the key is missing. -/
structure MCPDoc where
  mcpServers : Option (List (String × ServerConfig))
deriving DecidableEq

/-- External collaborators of the supervisor: the configuration store and
the subprocess launcher (`none` models a raised `Popen` exception). -/
structure SupEnv where
  getConfig : String → Option MCPDoc
  launch : String → String → Option Proc

/-- The supervisor's in-memory state: `self.servers` and `self.server_logs`. -/
structure SMState where
  servers : List (String × List (String × Proc))
  server_logs : List (String × List (String × List String))
deriving DecidableEq

/-- Lines 40-42 of `start_server`: create empty per-instance dicts. -/
def ensure_instance (st : SMState) (inst : String) : SMState :=
  match lookupA st.servers inst with
  | some _ => st
  | none => { servers := st.servers ++ [(inst, [])],
              server_logs := st.server_logs ++ [(inst, [])] }

/-- Lines 45-49: the pair is tracked and its handle polls as running. -/
def tracked_alive (st : SMState) (inst srv : String) : Bool :=
  match lookup2 st.servers inst srv with
  | some p => p.alive
  | none => false

/-- Line 53: the configuration document exists, has `mcpServers`, and has
an entry for the server. -/
def config_has_server (env : SupEnv) (inst srv : String) : Bool :=
  match env.getConfig inst with
  | none => false
  | some doc =>
    match doc.mcpServers with
    | none => false
    | some m => (lookupA m srv).isSome

/-- `start_server`: no-op success when tracked and alive; false when no
configuration entry exists; otherwise launch, record the handle and an
empty log buffer. -/
def start_server (env : SupEnv) (st : SMState) (inst srv : String) :
    Bool × SMState :=
  let st1 := ensure_instance st inst
  if tracked_alive st1 inst srv then (true, st1)
  else if config_has_server env inst srv then
    match env.launch inst srv with
    | some p =>
      (true, { servers := set2 st1.servers inst srv p,
               server_logs := set2 st1.server_logs inst srv [] })
    | none => (false, st1)
  else (false, st1)

/-- The observable process-control requests issued by `stop_server`. -/
inductive StopAct where
  | terminate
  | wait (secs : Nat)
  | kill
deriving DecidableEq

/-- `stop_server`: false when untracked; on a live handle terminate, wait
up to 3s, escalate to kill plus a 1s wait on timeout, returning true with
the entry left in place; on a dead handle delete the entry and return
true.  (The partial action sequence of the raising path is not modelled.) -/
def stop_server (st : SMState) (inst srv : String) :
    Bool × SMState × List StopAct :=
  match lookup2 st.servers inst srv with
  | none => (false, st, [])
  | some p =>
    if p.alive then
      match p.stopBehavior with
      | .graceful => (true, st, [.terminate, .wait 3])
      | .forced => (true, st, [.terminate, .wait 3, .kill, .wait 1])
      | .raises => (false, st, [])
    else
      (true, { st with servers := erase2 st.servers inst srv }, [])

/-- The loop of `start_all_servers`:
`success = success and self.start_server(...)` for each auto-start server;
the Python `and` short-circuits, so once `success` is false the call is
not made. -/
def start_all_loop (env : SupEnv) (inst : String) :
    List (String × ServerConfig) → Bool × SMState → Bool × SMState
  | [], acc => acc
  | e :: rest, acc =>
    start_all_loop env inst rest
      (if e.2.autoStart.getD false then
        (if acc.1 then start_server env acc.2 inst e.1 else acc)
      else acc)

/-- `start_all_servers`: false when no document or no `mcpServers` key;
otherwise run the loop over the configured servers. -/
def start_all_servers (env : SupEnv) (st : SMState) (inst : String) :
    Bool × SMState :=
  match env.getConfig inst with
  | none => (false, st)
  | some doc =>
    match doc.mcpServers with
    | none => (false, st)
    | some servers => start_all_loop env inst servers (true, st)

theorem lookupA_append_of_some {α : Type} {l : List (String × α)} {n : String}
    {v : α} (t : List (String × α)) (h : lookupA l n = some v) :
    lookupA (l ++ t) n = some v := by
  induction l with
  | nil => simp [lookupA] at h
  | cons e rest ih =>
    obtain ⟨k, w⟩ := e
    by_cases hk : k = n
    · subst hk; simp [lookupA] at h ⊢; exact h
    · simp [lookupA, hk] at h ⊢; exact ih h

theorem lookupA_append_none {α : Type} {l : List (String × α)} {n : String}
    (h : lookupA l n = none) (t : List (String × α)) :
    lookupA (l ++ t) n = lookupA t n := by
  induction l with
  | nil => simp
  | cons e rest ih =>
    obtain ⟨k, w⟩ := e
    by_cases hk : k = n
    · subst hk; simp [lookupA] at h
    · simp [lookupA, hk] at h ⊢; exact ih h

theorem lookup2_ensure (st : SMState) (inst i s : String) :
    lookup2 (ensure_instance st inst).servers i s = lookup2 st.servers i s := by
  unfold ensure_instance
  cases hA : lookupA st.servers inst with
  | some inner => rfl
  | none =>
    unfold lookup2
    dsimp only
    cases hI : lookupA st.servers i with
    | some inner => rw [lookupA_append_of_some _ hI]
    | none =>
      rw [lookupA_append_none hI]
      by_cases hins : inst = i
      · subst hins; simp [lookupA]
      · simp [lookupA, hins]

/-- C8 (amended): for every (instance, server) pair that is not currently
tracked, if the instance's configuration document is absent or lists no
entry for that server, `start_server` returns false and afterwards the
running-process table still has no entry for that pair. -/
theorem start_server_no_config (env : SupEnv) (st : SMState) (inst srv : String)
    (huntracked : lookup2 st.servers inst srv = none)
    (hnocfg : config_has_server env inst srv = false) :
    (start_server env st inst srv).1 = false ∧
    lookup2 (start_server env st inst srv).2.servers inst srv = none := by
  have h1 : lookup2 (ensure_instance st inst).servers inst srv = none := by
    rw [lookup2_ensure]; exact huntracked
  have h2 : tracked_alive (ensure_instance st inst) inst srv = false := by
    unfold tracked_alive; rw [h1]
  unfold start_server
  dsimp only
  rw [h2, hnocfg]
  exact ⟨rfl, h1⟩

def pAlive : Proc := { alive := true, stopBehavior := .graceful, output := [] }

def envNone : SupEnv := { getConfig := fun _ => none, launch := fun _ _ => none }

def stTracked : SMState :=
  { servers := [("i", [("s", pAlive)])], server_logs := [("i", [("s", [])])] }

/-- C8 counterexample: when the pair is already tracked with a live handle,
`start_server` returns true without consulting the configuration, so a pair
whose configuration document is absent does not always get false: the
alive-check at lines 45-49 precedes the configuration check. -/
theorem start_no_config_counterexample :
    config_has_server envNone "i" "s" = false ∧
    (start_server envNone stTracked "i" "s").1 = true :=
  ⟨rfl, rfl⟩

theorem start_server_no_config_witness :
    lookup2 (SMState.mk [] []).servers "i" "s" = none ∧
    config_has_server envNone "i" "s" = false ∧
    ((start_server envNone (SMState.mk [] []) "i" "s").1 = false ∧
      lookup2 (start_server envNone (SMState.mk [] []) "i" "s").2.servers "i" "s"
        = none) :=
  ⟨rfl, rfl, start_server_no_config envNone (SMState.mk [] []) "i" "s" rfl rfl⟩

/-- C3 (amended): stopping a tracked pair whose handle polls as running
requests graceful termination, waits up to 3 seconds, escalates to kill
with a further 1-second wait on timeout, and returns true — but the pair's
entry is left in the running-process table (the `del` only executes on the
already-exited path of a later `stop_server` call). -/
theorem stop_server_alive (st : SMState) (inst srv : String) (p : Proc)
    (htrack : lookup2 st.servers inst srv = some p)
    (halive : p.alive = true)
    (hnoraise : p.stopBehavior ≠ StopBehavior.raises) :
    (stop_server st inst srv).1 = true ∧
    (stop_server st inst srv).2.2 = [StopAct.terminate, StopAct.wait 3] ++
      (if p.stopBehavior = StopBehavior.forced
        then [StopAct.kill, StopAct.wait 1] else []) ∧
    lookup2 (stop_server st inst srv).2.1.servers inst srv = some p := by
  unfold stop_server
  rw [htrack]
  cases hb : p.stopBehavior with
  | graceful => simp [halive, hb, htrack]
  | forced => simp [halive, hb, htrack]
  | raises => exact absurd hb hnoraise

theorem stop_server_alive_witness :
    lookup2 stTracked.servers "i" "s" = some pAlive ∧
    pAlive.alive = true ∧
    pAlive.stopBehavior ≠ StopBehavior.raises ∧
    ((stop_server stTracked "i" "s").1 = true ∧
      (stop_server stTracked "i" "s").2.2 = [StopAct.terminate, StopAct.wait 3] ++
        (if pAlive.stopBehavior = StopBehavior.forced
          then [StopAct.kill, StopAct.wait 1] else []) ∧
      lookup2 (stop_server stTracked "i" "s").2.1.servers "i" "s" = some pAlive) :=
  ⟨rfl, rfl, by decide,
    stop_server_alive stTracked "i" "s" pAlive rfl rfl (by decide)⟩

/-- C3 counterexample: stopping a tracked, still-alive process returns true
yet leaves the (instance, server) entry in the running-process table, so the
claim that the entry is removed before returning true is false. -/
theorem stop_alive_keeps_entry_counterexample :
    (stop_server stTracked "i" "s").1 = true ∧
    lookup2 (stop_server stTracked "i" "s").2.1.servers "i" "s" = some pAlive :=
  ⟨rfl, rfl⟩

theorem start_all_loop_false (env : SupEnv) (inst : String)
    (rest : List (String × ServerConfig)) (t : SMState) :
    start_all_loop env inst rest (false, t) = (false, t) := by
  induction rest with
  | nil => rfl
  | cons e tail ih =>
    unfold start_all_loop
    cases hauto : e.2.autoStart.getD false <;> simpa [hauto] using ih

/-- Reference semantics written from the amended claim's words: attempt
each auto-start server in configuration order; once an attempted start
returns false, stop — no later server is attempted and the state no longer
changes; the aggregate result is the logical AND of the attempted starts
(true only when every attempted start succeeded). -/
def attempt_until_first_failure (env : SupEnv) (inst : String) :
    List (String × ServerConfig) → SMState → Bool × SMState
  | [], st => (true, st)
  | e :: rest, st =>
    if e.2.autoStart.getD false then
      (if (start_server env st inst e.1).1 then
        attempt_until_first_failure env inst rest (start_server env st inst e.1).2
      else (false, (start_server env st inst e.1).2))
    else attempt_until_first_failure env inst rest st

theorem start_all_loop_eq_attempted (env : SupEnv) (inst : String)
    (servers : List (String × ServerConfig)) :
    ∀ st : SMState,
      start_all_loop env inst servers (true, st)
        = attempt_until_first_failure env inst servers st := by
  induction servers with
  | nil => intro st; rfl
  | cons e rest ih =>
    intro st
    unfold start_all_loop attempt_until_first_failure
    cases hauto : e.2.autoStart.getD false with
    | false => simpa [hauto] using ih st
    | true =>
      simp only [hauto, if_true]
      cases hr : (start_server env st inst e.1).1 with
      | false =>
        have hx : start_server env st inst e.1
            = (false, (start_server env st inst e.1).2) := by
          rw [← hr]
        rw [hx, start_all_loop_false]
        simp
      | true =>
        have hx : start_server env st inst e.1
            = (true, (start_server env st inst e.1).2) := by
          rw [← hr]
        rw [hx, ih]
        simp

/-- C4 (amended): `start_all_servers` attempts auto-start servers in
configuration order only until the first failing start — `success =
success and self.start_server(...)` short-circuits, so once a start
returns false no later server is attempted and the state no longer
changes, and the overall result is the logical AND of the attempted
starts: `start_all_servers` coincides with the reference semantics
`attempt_until_first_failure` on every configured server list, whatever
the position of the first failure and also when every start succeeds. -/
theorem start_all_eq_attempted (env : SupEnv) (st : SMState) (inst : String)
    (doc : MCPDoc) (servers : List (String × ServerConfig))
    (hcfg : env.getConfig inst = some doc)
    (hm : doc.mcpServers = some servers) :
    start_all_servers env st inst
      = attempt_until_first_failure env inst servers st := by
  unfold start_all_servers
  rw [hcfg]
  dsimp only
  rw [hm]
  exact start_all_loop_eq_attempted env inst servers st

def cfgAuto : ServerConfig :=
  { command := some "npx", args := some [], env := some [], autoStart := some true }

def procB : Proc := { alive := true, stopBehavior := .graceful, output := [] }

def docTwo : MCPDoc := { mcpServers := some [("a", cfgAuto), ("b", cfgAuto)] }

def envTwo : SupEnv :=
  { getConfig := fun i => if i = "i" then some docTwo else none,
    launch := fun _ s => if s = "b" then some procB else none }

def stEmpty : SMState := { servers := [], server_logs := [] }

/-- C4 counterexample: two auto-start servers, "a" failing to launch and
"b" able to start (its individual start from the post-"a" state returns
true): `start_all_servers` returns false but never attempts "b" — no entry
for "b" is created — refuting the claim that every auto-start server is
attempted even after an earlier failure. -/
theorem start_all_skips_counterexample :
    (start_all_servers envTwo stEmpty "i").1 = false ∧
    lookup2 (start_all_servers envTwo stEmpty "i").2.servers "i" "b" = none ∧
    (start_server envTwo (start_server envTwo stEmpty "i" "a").2 "i" "b").1 = true :=
  ⟨rfl, rfl, rfl⟩

def docThree : MCPDoc :=
  { mcpServers := some [("b", cfgAuto), ("a", cfgAuto), ("c", cfgAuto)] }

def envThree : SupEnv :=
  { getConfig := fun i => if i = "i" then some docThree else none,
    launch := fun _ s => if s = "b" then some procB else none }

theorem start_all_eq_attempted_witness :
    envThree.getConfig "i" = some docThree ∧
    docThree.mcpServers = some [("b", cfgAuto), ("a", cfgAuto), ("c", cfgAuto)] ∧
    start_all_servers envThree stEmpty "i"
      = attempt_until_first_failure envThree "i"
          [("b", cfgAuto), ("a", cfgAuto), ("c", cfgAuto)] stEmpty ∧
    (start_all_servers envThree stEmpty "i").1 = false ∧
    lookup2 (start_all_servers envThree stEmpty "i").2.servers "i" "b"
      = some procB ∧
    lookup2 (start_all_servers envThree stEmpty "i").2.servers "i" "c" = none :=
  ⟨rfl, rfl,
    start_all_eq_attempted envThree stEmpty "i" docThree
      [("b", cfgAuto), ("a", cfgAuto), ("c", cfgAuto)] rfl rfl,
    rfl, rfl, rfl⟩

/-!
### Output capture (`update_server_logs` / `_read_process_output` /
`_read_line_nonblock` / `get_server_log`)

`_read_line_nonblock` returns the `.strip()`ped line when data is
available and the raw line is non-empty, else `None`; the loop in
`_read_process_output` breaks on a falsy value, i.e. both on `None` and on
a line that strips to the empty string.  Python's `str.strip()` is
modelled by `pyStrip` (drop whitespace from both ends of the character
list).
-/

def pyStrip (s : String) : String :=
  String.mk
    (((s.data.dropWhile Char.isWhitespace).reverse.dropWhile
      Char.isWhitespace).reverse)

/-- Lines 201-203: after each append, keep the 1000 most recent lines. -/
def capLog (logs : List String) : List String :=
  if logs.length > 1000 then logs.drop (logs.length - 1000) else logs

/-- The loop of `_read_process_output` over the pending raw lines: stop at
the end of available data or at a raw empty read (not consumed), stop and
consume at a line that strips to empty, else append the stripped line with
the cap applied.  Returns the log and the unconsumed part of the stream. -/
def drain_lines : List String → List String → List String × List String
  | logs, [] => (logs, [])
  | logs, raw :: rest =>
    if raw = "" then (logs, raw :: rest)
    else if pyStrip raw = "" then (logs, rest)
    else drain_lines (capLog (logs ++ [pyStrip raw])) rest

/-- `_read_process_output` for one (instance, server) pair: drain the
pending lines into the pair's log (created empty when missing) and store
the advanced handle back. -/
def drain_pair (st : SMState) (inst srv : String) (p : Proc) : SMState :=
  let res := drain_lines ((lookup2 st.server_logs inst srv).getD []) p.output
  { servers := set2 st.servers inst srv { p with output := res.2 },
    server_logs := set2 st.server_logs inst srv res.1 }

/-- `update_server_logs`: drain every tracked pair whose handle polls as
running. -/
def update_server_logs (st : SMState) : SMState :=
  List.foldl (fun acc ie =>
    List.foldl (fun acc2 se =>
      if se.2.alive then drain_pair acc2 ie.1 se.1 se.2 else acc2) acc ie.2)
    st st.servers

/-- `get_server_log`: the captured lines, `[]` when the pair is untracked. -/
def get_server_log (st : SMState) (inst srv : String) : List String :=
  (lookup2 st.server_logs inst srv).getD []

/-- The `n` most recent elements of a list. -/
def lastN {α : Type} (n : Nat) (l : List α) : List α := l.drop (l.length - n)

theorem capLog_eq_lastN (l : List String) : capLog l = lastN 1000 l := by
  unfold capLog lastN
  by_cases h : l.length > 1000
  · rw [if_pos h]
  · rw [if_neg h]
    have h0 : l.length - 1000 = 0 := by omega
    rw [h0, List.drop_zero]

theorem lastN_append_lastN {α : Type} (n : Nat) (l t : List α) :
    lastN n (lastN n l ++ t) = lastN n (l ++ t) := by
  by_cases h : l.length ≤ n
  · unfold lastN
    have h0 : l.length - n = 0 := by omega
    rw [h0, List.drop_zero]
  · unfold lastN
    conv_rhs => rw [← List.take_append_drop (l.length - n) l, List.append_assoc]
    have hA : (l.take (l.length - n)).length = l.length - n := by
      rw [List.length_take]
      omega
    have hS : (l.drop (l.length - n)).length = n := by
      rw [List.length_drop]
      omega
    have harith : (l.take (l.length - n) ++ (l.drop (l.length - n) ++ t)).length - n
        = (l.take (l.length - n)).length + ((l.drop (l.length - n) ++ t).length - n) := by
      simp only [List.length_append, hA, hS]
      omega
    rw [harith, List.drop_append]

theorem foldl_capLog (xs : List String) (acc : List String)
    (hacc : acc.length ≤ 1000) :
    List.foldl (fun a x => capLog (a ++ [x])) acc xs = lastN 1000 (acc ++ xs) := by
  induction xs generalizing acc with
  | nil =>
    simp only [List.foldl_nil, List.append_nil]
    unfold lastN
    have h0 : acc.length - 1000 = 0 := by omega
    rw [h0, List.drop_zero]
  | cons x rest ih =>
    rw [List.foldl_cons]
    have hlen : (capLog (acc ++ [x])).length ≤ 1000 := by
      unfold capLog
      by_cases h : (acc ++ [x]).length > 1000
      · rw [if_pos h, List.length_drop]
        omega
      · rw [if_neg h]
        omega
    rw [ih _ hlen, capLog_eq_lastN, lastN_append_lastN, List.append_assoc]
    rfl

theorem drain_lines_spec (raws : List String) (logs : List String)
    (hraw : ∀ r ∈ raws, r ≠ "") :
    (drain_lines logs raws).1 =
      List.foldl (fun a x => capLog (a ++ [x])) logs
        ((raws.takeWhile fun r => pyStrip r != "").map pyStrip) := by
  induction raws generalizing logs with
  | nil => rfl
  | cons raw rest ih =>
    have hne : raw ≠ "" := hraw raw (List.mem_cons_self _ _)
    unfold drain_lines
    rw [if_neg hne]
    by_cases ht : pyStrip raw = ""
    · rw [if_pos ht, List.takeWhile_cons]
      simp [ht]
    · rw [if_neg ht, List.takeWhile_cons]
      have hpred : (pyStrip raw != "") = true := by
        simpa using ht
      rw [hpred]
      simp only [if_true, List.map_cons, List.foldl_cons]
      exact ih _ (fun r hr => hraw r (List.mem_cons_of_mem _ hr))

theorem start_from_empty (env : SupEnv) (inst srv : String) (p : Proc)
    (hcfg : config_has_server env inst srv = true)
    (hl : env.launch inst srv = some p) :
    start_server env stEmpty inst srv =
      (true, { servers := [(inst, [(srv, p)])],
               server_logs := [(inst, [(srv, [])])] }) := by
  have hens : ensure_instance stEmpty inst
      = { servers := [(inst, [])], server_logs := [(inst, [])] } := rfl
  have htr : tracked_alive
      { servers := [(inst, [])], server_logs := [(inst, [])] } inst srv
        = false := by
    unfold tracked_alive lookup2
    simp [lookupA]
  unfold start_server
  dsimp only
  rw [hens, htr, hcfg, hl]
  simp [set2, setA, lookupA]

theorem update_single (inst srv : String) (p : Proc) (hal : p.alive = true) :
    update_server_logs { servers := [(inst, [(srv, p)])],
                         server_logs := [(inst, [(srv, [])])] } =
      { servers :=
          [(inst, [(srv, { p with output := (drain_lines [] p.output).2 })])],
        server_logs := [(inst, [(srv, (drain_lines [] p.output).1)])] } := by
  unfold update_server_logs
  simp only [List.foldl_cons, List.foldl_nil]
  unfold drain_pair
  simp [hal, lookup2, lookupA, set2, setA]

theorem stop_state_alive (st : SMState) (inst srv : String) (p : Proc)
    (htrack : lookup2 st.servers inst srv = some p) (hal : p.alive = true) :
    (stop_server st inst srv).2.1 = st := by
  unfold stop_server
  rw [htrack]
  cases hb : p.stopBehavior <;> simp [hal, hb]

/-- C9 (amended): after start (from a fresh supervisor), one drain pass and
stop, `get_server_log` returns exactly the whitespace-stripped lines the
subprocess wrote before its first whitespace-only line (all lines when none
is whitespace-only), in emission order, truncated to the 1000 most recent;
the drain loop breaks at a whitespace-only line because `strip()` makes it
falsy. -/
theorem get_log_after_start_drain_stop (env : SupEnv) (inst srv : String)
    (p : Proc) (hcfg : config_has_server env inst srv = true)
    (hl : env.launch inst srv = some p) (hal : p.alive = true)
    (hraw : ∀ r ∈ p.output, r ≠ "") :
    get_server_log
      (stop_server (update_server_logs (start_server env stEmpty inst srv).2)
        inst srv).2.1 inst srv
      = lastN 1000 ((p.output.takeWhile fun r => pyStrip r != "").map pyStrip) := by
  rw [start_from_empty env inst srv p hcfg hl]
  dsimp only
  rw [update_single inst srv p hal]
  have htrack : lookup2
      ([(inst, [(srv, { p with output := (drain_lines [] p.output).2 })])] :
        List (String × List (String × Proc))) inst srv
      = some { p with output := (drain_lines [] p.output).2 } := by
    unfold lookup2
    simp [lookupA]
  have halq : ({ p with output := (drain_lines [] p.output).2 } : Proc).alive
      = true := hal
  rw [stop_state_alive _ inst srv _ htrack halq]
  have hlog : get_server_log
      { servers :=
          [(inst, [(srv, { p with output := (drain_lines [] p.output).2 })])],
        server_logs := [(inst, [(srv, (drain_lines [] p.output).1)])] } inst srv
      = (drain_lines [] p.output).1 := by
    unfold get_server_log lookup2
    simp [lookupA]
  rw [hlog, drain_lines_spec p.output [] hraw,
    foldl_capLog _ [] (by simp), List.nil_append]

def pLog : Proc :=
  { alive := true, stopBehavior := .graceful,
    output := ["hello\n", "\n", "world\n"] }

def cfgPlain : ServerConfig :=
  { command := some "npx", args := some [], env := some [],
    autoStart := some false }

def envLog : SupEnv :=
  { getConfig := fun _ => some { mcpServers := some [("s", cfgPlain)] },
    launch := fun _ _ => some pLog }

/-- C9 counterexample: the subprocess wrote three lines, none of which is
lost to the 1000-line cap, yet after start, one drain pass and stop the
captured log holds a single line: the blank line strips to the empty
string, which is falsy, so `if not line: break` ends the drain before
"world" — refuting "exactly the lines the subprocess wrote". -/
theorem get_log_counterexample :
    get_server_log
      (stop_server (update_server_logs (start_server envLog stEmpty "i" "s").2)
        "i" "s").2.1 "i" "s" = ["hello"] ∧
    pLog.output.length = 3 ∧ (3 : Nat) ≤ 1000 := by
  refine ⟨by decide, rfl, by decide⟩

theorem get_log_after_start_drain_stop_witness :
    config_has_server envLog "i" "s" = true ∧
    envLog.launch "i" "s" = some pLog ∧
    pLog.alive = true ∧
    (∀ r ∈ pLog.output, r ≠ "") ∧
    get_server_log
      (stop_server (update_server_logs (start_server envLog stEmpty "i" "s").2)
        "i" "s").2.1 "i" "s"
      = lastN 1000 ((pLog.output.takeWhile fun r => pyStrip r != "").map pyStrip) :=
  ⟨rfl, rfl, rfl, by decide,
    get_log_after_start_drain_stop envLog "i" "s" pLog rfl rfl rfl (by decide)⟩

end CDesk
